import Mathlib

/-!
Verification of the kurbisio asynchronous job/event processing engine,
its notification fan-out and delete-notification payload construction.

Sources modelled:
- `core/backend/collection.go` (`doDeleteWithAuth`, column layout) — from source.
- `core/backend` `New` (default trigger loop) — from source.
- the event engine (`RaiseEvent`, `ProcessJobsSync`, rate limiter, backoff,
  `Health`, notification registry): these functions are exercised by the tests
  in the repository but their defining file is not part of the given sources,
  so they are modelled from the specification (see the doc comments below).

Time is modelled in milliseconds as `Nat`.
-/

namespace Kurbisio

/-- Modelled from the spec: a per-event-type rate-limit policy.
`delta` is the minimum spacing between dispatches of the type and `maxAge`
is the staleness threshold for queued occurrences (spec section 3 and 4.2). -/
structure RateLimitPolicy where
  delta : Nat
  maxAge : Nat
deriving Repr, DecidableEq

/-- Modelled from the spec: a persisted job row (spec section 3).
`scheduledAt = none` means immediately eligible with no explicit schedule,
`attemptsLeft = 0` marks a permanently failed retained record. -/
structure Job where
  id : Nat
  typ : String
  scheduledAt : Option Nat
  attemptsLeft : Nat
  createdAt : Nat
deriving Repr, DecidableEq

/-- Modelled from the spec: the event delivered to a handler; it carries the
schedule the dispatched job had (`ScheduledAt` in the Go `Event` struct). -/
structure Event where
  typ : String
  scheduledAt : Option Nat
deriving Repr, DecidableEq

/-- Modelled from the spec: the engine state owned by one backend instance:
the durable job rows, the per-type rate-limit policies, the per-type last
effective dispatch time (the rate-limiter chain anchor) and the configured
backoff sequence. `nextId` generates fresh row identifiers. -/
structure EngineState where
  jobs : List Job
  policies : String → Option RateLimitPolicy
  tLast : String → Option Nat
  nextId : Nat
  backoff : List Nat

/-- Point update of the rate-limiter chain anchor for one event type. -/
def setAnchor (f : String → Option Nat) (k : String) (v : Nat) : String → Option Nat :=
  fun x => if x = k then some v else f x

/-- Modelled from the spec (section 4.2): the rate limiter schedule for a new
occurrence. Without a policy no explicit schedule is computed (`none`); with a
policy the schedule is `max occurrenceTime (tLast + delta)` and the chain
anchor advances to the computed value. Returns the stored schedule and the
updated anchor map. -/
def applySchedule (policies : String → Option RateLimitPolicy)
    (tl : String → Option Nat) (typ : String) (occ : Nat) :
    Option Nat × (String → Option Nat) :=
  match policies typ with
  | none => (none, tl)
  | some p =>
      let s := match tl typ with
        | none => occ
        | some t => max occ (t + p.delta)
      (some s, setAnchor tl typ s)

/-- Modelled from the spec (sections 4.2 and 4.3): the schedule of a retry.
The backoff schedule `base` is reconciled with the rate limiter by taking the
later of the backoff time and `tLast + delta`; the anchor then advances. -/
def applyRetry (policies : String → Option RateLimitPolicy)
    (tl : String → Option Nat) (typ : String) (base : Nat) :
    Nat × (String → Option Nat) :=
  match policies typ with
  | none => (base, tl)
  | some p =>
      let s := match tl typ with
        | none => base
        | some t => max base (t + p.delta)
      (s, setAnchor tl typ s)

/-- Modelled from the spec (section 6): `RaiseEvent` persists a job for the
event type, applying the rate limiter when the type has a policy. The
attempts budget is one initial attempt plus one retry per backoff entry. -/
def raiseEvent (st : EngineState) (typ : String) (occ : Nat) : EngineState :=
  let p := applySchedule st.policies st.tLast typ occ
  { st with
    jobs := st.jobs ++ [⟨st.nextId, typ, p.1, st.backoff.length + 1, occ⟩],
    nextId := st.nextId + 1,
    tLast := p.2 }

/-- A job row is due when it has no explicit schedule or its schedule has
been reached (spec section 3). -/
def dueAtB (j : Job) (now : Nat) : Bool :=
  match j.scheduledAt with
  | none => true
  | some s => s ≤ now

/-- Modelled from the spec (section 4.2): a rate-limited job is stale when
its age in the queue exceeds the policy's `maxAge`. Jobs of types without a
policy are never stale. -/
def staleAtB (policies : String → Option RateLimitPolicy) (j : Job) (now : Nat) : Bool :=
  match policies j.typ with
  | none => false
  | some p => j.createdAt + p.maxAge < now

/-- Modelled from the spec (section 4.4): one synchronous processing round
over the job rows in order. `hOK t` tells whether the registered handler for
type `t` succeeds. Due, non-exhausted jobs are dispatched: on success the row
is deleted, on failure the attempts counter is decremented and the row is
either rescheduled by the backoff policy (reconciled with the rate limiter)
or retained terminally when the budget is exhausted. A due but stale
rate-limited job is not dispatched; it is treated as freshly raised at the
current processing time. Returns the dispatched events, the new rows and the
new anchor map. -/
def processJobs (hOK : String → Bool) (policies : String → Option RateLimitPolicy)
    (backoff : List Nat) (now : Nat) :
    List Job → (String → Option Nat) → List Event × List Job × (String → Option Nat)
  | [], tl => ([], [], tl)
  | j :: rest, tl =>
    if j.attemptsLeft = 0 ∨ dueAtB j now = false then
      let r := processJobs hOK policies backoff now rest tl
      (r.1, j :: r.2.1, r.2.2)
    else if staleAtB policies j now then
      let p := applySchedule policies tl j.typ now
      let r := processJobs hOK policies backoff now rest p.2
      (r.1, { j with scheduledAt := p.1, createdAt := now } :: r.2.1, r.2.2)
    else
      let ev : Event := ⟨j.typ, j.scheduledAt⟩
      if hOK j.typ then
        let r := processJobs hOK policies backoff now rest tl
        (ev :: r.1, r.2.1, r.2.2)
      else
        let a := j.attemptsLeft - 1
        if a = 0 then
          let r := processJobs hOK policies backoff now rest tl
          (ev :: r.1, { j with attemptsLeft := 0 } :: r.2.1, r.2.2)
        else
          let base := now + backoff.getD (backoff.length - a) 0
          let p := applyRetry policies tl j.typ base
          let r := processJobs hOK policies backoff now rest p.2
          (ev :: r.1, { j with scheduledAt := some p.1, attemptsLeft := a } :: r.2.1, r.2.2)

/-- Modelled from the spec (section 6): `ProcessJobsSync(-1)` — one blocking
processing round over all currently due jobs at time `now`. -/
def processJobsSync (hOK : String → Bool) (now : Nat) (st : EngineState) :
    List Event × EngineState :=
  let r := processJobs hOK st.policies st.backoff now st.jobs st.tLast
  (r.1, { st with jobs := r.2.1, tLast := r.2.2 })

/-- Repeatedly running synchronous processing, one round per listed time. -/
def runPasses (hOK : String → Bool) : List Nat → EngineState → List Event × EngineState
  | [], st => ([], st)
  | n :: ns, st =>
      let p := processJobsSync hOK n st
      let q := runPasses hOK ns p.2
      (p.1 ++ q.1, q.2)

/-- Modelled from the spec (section 6): `Health(true)` job details — the
event type and remaining attempts of every retained job row. -/
def healthDetails (st : EngineState) : List (String × Nat) :=
  st.jobs.map fun j => (j.typ, j.attemptsLeft)

/-- A fresh engine with the given policies and backoff sequence. -/
def initState (policies : String → Option RateLimitPolicy) (backoff : List Nat) :
    EngineState :=
  ⟨[], policies, fun _ => none, 0, backoff⟩

/-- Modelled from the spec: `DefineRateLimitForEvent` registers a policy. -/
def defineRateLimitForEvent (st : EngineState) (typ : String) (delta maxAge : Nat) :
    EngineState :=
  { st with policies := fun x => if x = typ then some ⟨delta, maxAge⟩ else st.policies x }

/-- C8: for a type without a rate-limit policy, `RaiseEvent` stores a job with
no explicit schedule (`scheduledAt = none`, immediately eligible); a single
synchronous pass with a succeeding handler dispatches exactly one event, the
delivered event carries `ScheduledAt = none` (distinguishing a first attempt),
and the job row is removed. -/
theorem raise_without_policy_dispatches_once (t : String) (r now : Nat) :
    (let st0 := raiseEvent (initState (fun _ => none) [1000, 2000, 3000]) t r
     (∃ j, st0.jobs = [j] ∧ j.scheduledAt = none) ∧
     (processJobsSync (fun _ => true) now st0).1 = [⟨t, none⟩] ∧
     (processJobsSync (fun _ => true) now st0).2.jobs = []) := by
  refine ⟨⟨⟨0, t, none, 4, r⟩, ?_, rfl⟩, ?_, ?_⟩ <;>
    simp [raiseEvent, initState, applySchedule, processJobsSync, processJobs, dueAtB, staleAtB]

/-- Witness for C8 at concrete inputs. -/
theorem raise_without_policy_dispatches_once_witness :
    (∃ j, (raiseEvent (initState (fun _ => none) [1000, 2000, 3000]) "e" 5).jobs = [j] ∧
      j.scheduledAt = none) ∧
    (processJobsSync (fun _ => true) 7
      (raiseEvent (initState (fun _ => none) [1000, 2000, 3000]) "e" 5)).1 =
      [⟨"e", none⟩] ∧
    (processJobsSync (fun _ => true) 7
      (raiseEvent (initState (fun _ => none) [1000, 2000, 3000]) "e" 5)).2.jobs = [] :=
  raise_without_policy_dispatches_once "e" 5 7

/-- C1: with an always-failing handler, no rate-limit policy and backoff
sequence `[d0, d1, d2]`, repeatedly running synchronous processing (four
rounds, each at or after the pending schedule) yields exactly 4 handler
invocations: the initial one with no schedule and three retries. Retry `i`
(0-indexed) is scheduled exactly at the previous attempt's processing time
plus `d i`, hence inside the window `[prev + d i, prev + d i + 50]`. After
the 4th failure the job row is retained with `attemptsLeft = 0`, no further
round dispatches it, and it is visible in `Health` with its type. -/
theorem event_retry_backoff (t : String) (d0 d1 d2 r n0 n1 n2 n3 : Nat)
    (h1 : n0 + d0 ≤ n1) (h2 : n1 + d1 ≤ n2) (h3 : n2 + d2 ≤ n3) :
    (let st0 := raiseEvent (initState (fun _ => none) [d0, d1, d2]) t r
     let res := runPasses (fun _ => false) [n0, n1, n2, n3] st0
     res.1 = [⟨t, none⟩, ⟨t, some (n0 + d0)⟩, ⟨t, some (n1 + d1)⟩, ⟨t, some (n2 + d2)⟩] ∧
     (n0 + d0 ≤ n0 + d0 ∧ n0 + d0 ≤ n0 + d0 + 50) ∧
     (n1 + d1 ≤ n1 + d1 ∧ n1 + d1 ≤ n1 + d1 + 50) ∧
     (n2 + d2 ≤ n2 + d2 ∧ n2 + d2 ≤ n2 + d2 + 50) ∧
     (∃ j, res.2.jobs = [j] ∧ j.attemptsLeft = 0) ∧
     (t, 0) ∈ healthDetails res.2 ∧
     ∀ m, (processJobsSync (fun _ => false) m res.2).1 = []) := by
  intro st0 res
  have hjobs : st0.jobs = [⟨0, t, none, 4, r⟩] := by
    simp [st0, raiseEvent, initState, applySchedule]
  have hres : res =
      ([⟨t, none⟩, ⟨t, some (n0 + d0)⟩, ⟨t, some (n1 + d1)⟩, ⟨t, some (n2 + d2)⟩],
        { st0 with jobs := [⟨0, t, some (n2 + d2), 0, r⟩] }) := by
    simp [res, runPasses, processJobsSync, hjobs, processJobs, dueAtB, staleAtB,
      applyRetry, h1, h2, h3, st0, raiseEvent, initState, applySchedule]
  refine ⟨by rw [hres], ⟨le_refl _, by omega⟩, ⟨le_refl _, by omega⟩, ⟨le_refl _, by omega⟩,
    ⟨⟨0, t, some (n2 + d2), 0, r⟩, by rw [hres], rfl⟩, ?_, ?_⟩
  · rw [hres]
    simp [healthDetails]
  · intro m
    rw [hres]
    simp [processJobsSync, processJobs]

/-- Witness for C1 at concrete inputs: backoff `[1000, 2000, 3000]`, rounds at
times 1000, 2000, 4000 and 7000. -/
theorem event_retry_backoff_witness :
    (1000 + 1000 ≤ 2000 ∧ 2000 + 2000 ≤ 4000 ∧ 4000 + 3000 ≤ 7000) ∧
    (let st0 := raiseEvent (initState (fun _ => none) [1000, 2000, 3000]) "retry-event" 0
     let res := runPasses (fun _ => false) [1000, 2000, 4000, 7000] st0
     res.1 = [⟨"retry-event", none⟩, ⟨"retry-event", some 2000⟩,
       ⟨"retry-event", some 4000⟩, ⟨"retry-event", some 7000⟩] ∧
     (2000 ≤ 2000 ∧ 2000 ≤ 2050) ∧
     (4000 ≤ 4000 ∧ 4000 ≤ 4050) ∧
     (7000 ≤ 7000 ∧ 7000 ≤ 7050) ∧
     (∃ j, res.2.jobs = [j] ∧ j.attemptsLeft = 0) ∧
     ("retry-event", 0) ∈ healthDetails res.2 ∧
     ∀ m, (processJobsSync (fun _ => false) m res.2).1 = []) :=
  ⟨⟨by decide, by decide, by decide⟩,
    event_retry_backoff "retry-event" 1000 2000 3000 0 1000 2000 4000 7000
      (by decide) (by decide) (by decide)⟩

/-- Modelled from the spec: a burst of `RaiseEvent` calls for one type, in
order, at the listed occurrence times. -/
def raiseBurst (st : EngineState) (typ : String) : List Nat → EngineState
  | [] => st
  | o :: os => raiseBurst (raiseEvent st typ o) typ os

/-- Arithmetic reshaping of a chained schedule list: prepending the first
chain step to a chain anchored at `T + delta` gives the chain anchored at
`T`, one entry longer. -/
lemma range_chain_map (T delta n : Nat) :
    some (T + delta) :: (List.range n).map (fun i => some (T + delta + (i + 1) * delta))
      = (List.range (n + 1)).map (fun i => some (T + (i + 1) * delta)) := by
  rw [List.range_succ_eq_map]
  simp only [List.map_cons, List.map_map]
  congr 1
  · congr 1
    ring
  · apply List.map_congr_left
    intro i _
    simp only [Function.comp_apply, Nat.succ_eq_add_one]
    congr 1
    ring

/-- Variant of the reshaping with the head entry at the anchor itself. -/
lemma range_chain_map0 (T delta n : Nat) :
    some T :: (List.range n).map (fun i => some (T + (i + 1) * delta))
      = (List.range (n + 1)).map (fun i => some (T + i * delta)) := by
  rw [List.range_succ_eq_map]
  simp only [List.map_cons, List.map_map]
  congr 1
  simp

/-- Monotonic chaining of the rate limiter: starting from chain anchor `T`,
a burst whose occurrence times never outrun the chain collapses into a
strictly `delta`-spaced sequence of schedules, and the anchor advances by
`delta` per occurrence. -/
lemma raiseBurst_schedules (typ : String) (delta maxAge : Nat) (os : List Nat) :
    ∀ (st : EngineState) (T : Nat),
      st.policies typ = some ⟨delta, maxAge⟩ →
      st.tLast typ = some T →
      (∀ k (h : k < os.length), os[k] ≤ T + (k + 1) * delta) →
      (raiseBurst st typ os).jobs.map (fun j => j.scheduledAt)
        = st.jobs.map (fun j => j.scheduledAt)
          ++ (List.range os.length).map (fun i => some (T + (i + 1) * delta)) ∧
      (raiseBurst st typ os).tLast typ = some (T + os.length * delta) ∧
      (raiseBurst st typ os).policies = st.policies := by
  induction os with
  | nil =>
      intro st T hp ht _
      simp [raiseBurst, ht]
  | cons o os ih =>
      intro st T hp ht hk
      have ho : o ≤ T + delta := by
        have h0 := hk 0 (by simp)
        simpa using h0
      have hone : raiseEvent st typ o =
          { st with
            jobs := st.jobs ++ [⟨st.nextId, typ, some (T + delta), st.backoff.length + 1, o⟩],
            nextId := st.nextId + 1,
            tLast := setAnchor st.tLast typ (T + delta) } := by
        simp [raiseEvent, applySchedule, hp, ht, Nat.max_eq_right ho]
      have hrec := ih (raiseEvent st typ o) (T + delta)
        (by rw [hone]; exact hp)
        (by rw [hone]; simp [setAnchor])
        (by
          intro k hkk
          have := hk (k + 1) (by simpa using Nat.succ_lt_succ hkk)
          simp only [List.getElem_cons_succ] at this
          calc os[k] ≤ T + (k + 1 + 1) * delta := this
            _ = T + delta + (k + 1) * delta := by ring)
      refine ⟨?_, ?_, ?_⟩
      · rw [show raiseBurst st typ (o :: os) = raiseBurst (raiseEvent st typ o) typ os from rfl,
          hrec.1, hone]
        simp only [List.map_append, List.map_cons, List.map_nil, List.append_assoc,
          List.singleton_append, List.length_cons]
        rw [range_chain_map]
      · rw [show raiseBurst st typ (o :: os) = raiseBurst (raiseEvent st typ o) typ os from rfl,
          hrec.2.1]
        congr 1
        simp only [List.length_cons]
        ring
      · rw [show raiseBurst st typ (o :: os) = raiseBurst (raiseEvent st typ o) typ os from rfl,
          hrec.2.2, hone]

/-- C2: with a rate-limit policy `(delta, maxAge)` registered for a type and a
burst of `N = 1 + os.length` occurrences whose times never outrun the chain,
the persisted schedules are exactly `dispatch0 + i * delta` for `i = 0 .. N-1`
(hence the i-th dispatch is scheduled no earlier than `dispatch0 + i * delta`
and no later than that plus 50), and the chain anchor `T_last` ends at
`dispatch0 + (N-1) * delta`. Moreover each single `RaiseEvent` against an
anchored chain persists the schedule `max occurrenceTime (T_last + delta)`
and advances `T_last` to exactly that value. -/
theorem rate_limit_burst (typ : String) (delta maxAge bk0 o0 : Nat) (os : List Nat)
    (hk : ∀ k (h : k < os.length), os[k] ≤ o0 + (k + 1) * delta) :
    (let st := defineRateLimitForEvent (initState (fun _ => none) [bk0]) typ delta maxAge
     let st1 := raiseBurst st typ (o0 :: os)
     st1.jobs.map (fun j => j.scheduledAt)
        = (List.range (os.length + 1)).map (fun i => some (o0 + i * delta)) ∧
     st1.tLast typ = some (o0 + os.length * delta) ∧
     ∀ i, 1 ≤ i → i < os.length + 1 →
       o0 + i * delta ≤ o0 + i * delta ∧ o0 + i * delta ≤ o0 + i * delta + 50) ∧
    ∀ (st : EngineState) (occ T : Nat),
      st.policies typ = some ⟨delta, maxAge⟩ → st.tLast typ = some T →
      (raiseEvent st typ occ).jobs
          = st.jobs ++ [⟨st.nextId, typ, some (max occ (T + delta)),
              st.backoff.length + 1, occ⟩] ∧
      (raiseEvent st typ occ).tLast typ = some (max occ (T + delta)) := by
  constructor
  · intro st st1
    have hp : st.policies typ = some ⟨delta, maxAge⟩ := by
      simp [st, defineRateLimitForEvent, initState]
    have hone : raiseEvent st typ o0 =
        { st with
          jobs := st.jobs ++ [⟨st.nextId, typ, some o0, st.backoff.length + 1, o0⟩],
          nextId := st.nextId + 1,
          tLast := setAnchor st.tLast typ o0 } := by
      have ht : st.tLast typ = none := by simp [st, defineRateLimitForEvent, initState]
      simp [raiseEvent, applySchedule, hp, ht]
    have hrec := raiseBurst_schedules typ delta maxAge os (raiseEvent st typ o0) o0
      (by rw [hone]; exact hp)
      (by rw [hone]; simp [setAnchor])
      (by intro k hkk; exact hk k hkk)
    refine ⟨?_, ?_, ?_⟩
    · rw [show st1 = raiseBurst (raiseEvent st typ o0) typ os from rfl, hrec.1, hone]
      have hstj : st.jobs = [] := by simp [st, defineRateLimitForEvent, initState]
      rw [hstj]
      simp only [List.nil_append, List.map_append, List.map_cons, List.map_nil,
        List.singleton_append]
      rw [range_chain_map0]
    · rw [show st1 = raiseBurst (raiseEvent st typ o0) typ os from rfl, hrec.2.1]
    · intro i _ _
      omega
  · intro st occ T hp ht
    constructor
    · simp [raiseEvent, applySchedule, hp, ht]
    · simp [raiseEvent, applySchedule, hp, ht, setAnchor]

/-- Witness for C2 at concrete inputs: `delta = 500`, burst of four raises at
time 0, schedules 0, 500, 1000, 1500. -/
theorem rate_limit_burst_witness :
    (∀ k (h : k < ([0, 0, 0] : List Nat).length), ([0, 0, 0] : List Nat)[k] ≤ 0 + (k + 1) * 500) ∧
    ((let st := defineRateLimitForEvent (initState (fun _ => none) [200]) "rl" 500 60000
      let st1 := raiseBurst st "rl" (0 :: [0, 0, 0])
      st1.jobs.map (fun j => j.scheduledAt)
         = (List.range (([0, 0, 0] : List Nat).length + 1)).map (fun i => some (0 + i * 500)) ∧
      st1.tLast "rl" = some (0 + ([0, 0, 0] : List Nat).length * 500) ∧
      ∀ i, 1 ≤ i → i < ([0, 0, 0] : List Nat).length + 1 →
        0 + i * 500 ≤ 0 + i * 500 ∧ 0 + i * 500 ≤ 0 + i * 500 + 50) ∧
     ∀ (st : EngineState) (occ T : Nat),
       st.policies "rl" = some ⟨500, 60000⟩ → st.tLast "rl" = some T →
       (raiseEvent st "rl" occ).jobs
           = st.jobs ++ [⟨st.nextId, "rl", some (max occ (T + 500)),
               st.backoff.length + 1, occ⟩] ∧
       (raiseEvent st "rl" occ).tLast "rl" = some (max occ (T + 500))) :=
  ⟨by decide, rate_limit_burst "rl" 500 60000 200 0 [0, 0, 0] (by decide)⟩

/-- C3: two rate-limited occurrences raised at time 0 whose age exceeds
`maxAge` by the time the dispatcher runs at `now` are not dispatched on
their stale chained schedules; they are re-anchored to the processing time:
the first is dispatched with schedule `now`, the chain anchor is reset to
the processing time, the second follows at `now + delta`, and a subsequent
occurrence of the same type resumes `delta` spacing from the new anchor
(schedule `now + delta + delta`). -/
theorem rate_limit_max_age (typ : String) (delta maxAge b0 now o : Nat)
    (h1 : maxAge < now) (h2 : delta + delta ≤ now) (h3 : 0 < delta)
    (h4 : delta ≤ maxAge) (h5 : o ≤ now + delta + delta) :
    (let st := defineRateLimitForEvent (initState (fun _ => none) [b0]) typ delta maxAge
     let st1 := raiseEvent (raiseEvent st typ 0) typ 0
     let r := runPasses (fun _ => true) [now, now, now + delta] st1
     r.1 = [⟨typ, some now⟩, ⟨typ, some (now + delta)⟩] ∧
     r.2.jobs = [] ∧
     r.2.tLast typ = some (now + delta) ∧
     (raiseEvent r.2 typ o).jobs.map (fun j => j.scheduledAt)
       = [some (now + delta + delta)]) := by
  intro st st1 r
  have hd1 : delta ≤ now := by omega
  have hd2 : (0 : Nat) ≤ now := by omega
  have hs1 : ¬ (now + maxAge < now) := by omega
  have hs2 : ¬ (now + maxAge < now + delta) := by omega
  have hnd : ¬ (now + delta ≤ now) := by omega
  have hm1 : max now (delta + delta) = now := Nat.max_eq_left h2
  have hm2 : max now (now + delta) = now + delta := Nat.max_eq_right (by omega)
  have hm3 : max o (now + delta + delta) = now + delta + delta := Nat.max_eq_right h5
  refine ⟨?_, ?_, ?_, ?_⟩ <;>
    simp [r, st1, st, runPasses, processJobsSync, processJobs, dueAtB, staleAtB,
      applySchedule, raiseEvent, defineRateLimitForEvent, initState, setAnchor,
      h1, hd1, hd2, hs1, hs2, hnd, hm1, hm2, hm3]

/-- Witness for C3 at concrete inputs: `delta = 200`, `maxAge = 400`, rounds
resuming at `now = 2000` after idle time. -/
theorem rate_limit_max_age_witness :
    (400 < 2000 ∧ 200 + 200 ≤ 2000 ∧ 0 < 200 ∧ 200 ≤ 400 ∧ 2000 ≤ 2000 + 200 + 200) ∧
    (let st := defineRateLimitForEvent (initState (fun _ => none) [123]) "ma" 200 400
     let st1 := raiseEvent (raiseEvent st "ma" 0) "ma" 0
     let r := runPasses (fun _ => true) [2000, 2000, 2000 + 200] st1
     r.1 = [⟨"ma", some 2000⟩, ⟨"ma", some (2000 + 200)⟩] ∧
     r.2.jobs = [] ∧
     r.2.tLast "ma" = some (2000 + 200) ∧
     (raiseEvent r.2 "ma" 2000).jobs.map (fun j => j.scheduledAt)
       = [some (2000 + 200 + 200)]) :=
  ⟨⟨by decide, by decide, by decide, by decide, by decide⟩,
    rate_limit_max_age "ma" 200 400 123 2000 2000
      (by decide) (by decide) (by decide) (by decide) (by decide)⟩

/-- C4: for a type with both a rate-limit policy and a backoff policy, a
failing first attempt is rescheduled at the later of the backoff retry time
`now + d0` and the rate-limit time `T_last + delta`; when the retry delay is
shorter than `delta` the retry is dispatched at the first attempt's schedule
plus `delta`, not at `now + d0`. -/
theorem rate_limit_retry_reconcile (typ : String) (delta maxAge d0 d1 d2 n0 : Nat)
    (h1 : n0 ≤ maxAge) (h2 : n0 + d0 ≤ delta) (h3 : delta ≤ maxAge) :
    (let st := defineRateLimitForEvent (initState (fun _ => none) [d0, d1, d2]) typ delta maxAge
     let st1 := raiseEvent st typ 0
     let p1 := processJobsSync (fun _ => false) n0 st1
     p1.1 = [⟨typ, some 0⟩] ∧
     p1.2.jobs.map (fun j => j.scheduledAt) = [some (max (n0 + d0) delta)] ∧
     max (n0 + d0) delta = delta ∧
     p1.2.tLast typ = some delta ∧
     (processJobsSync (fun _ => false) delta p1.2).1 = [⟨typ, some delta⟩] ∧
     (n0 + d0 < delta → (some delta : Option Nat) ≠ some (n0 + d0))) := by
  intro st st1 p1
  have hs1 : ¬ (maxAge < n0) := by omega
  have hs2 : ¬ (maxAge < delta) := by omega
  have hm : max (n0 + d0) delta = delta := Nat.max_eq_right h2
  refine ⟨?_, ?_, ?_, ?_, ?_, ?_⟩ <;>
    simp [p1, st1, st, processJobsSync, processJobs, dueAtB, staleAtB, applyRetry,
      applySchedule, raiseEvent, defineRateLimitForEvent, initState, setAnchor,
      hs1, hs2, hm, h2]
  omega

/-- Witness for C4 at concrete inputs: retry delay 200, `delta = 1000`, first
attempt processed at time 100. -/
theorem rate_limit_retry_reconcile_witness :
    (100 ≤ 60000 ∧ 100 + 200 ≤ 1000 ∧ 1000 ≤ 60000) ∧
    (let st := defineRateLimitForEvent (initState (fun _ => none) [200, 200, 200])
       "rlr" 1000 60000
     let st1 := raiseEvent st "rlr" 0
     let p1 := processJobsSync (fun _ => false) 100 st1
     p1.1 = [⟨"rlr", some 0⟩] ∧
     p1.2.jobs.map (fun j => j.scheduledAt) = [some (max (100 + 200) 1000)] ∧
     max (100 + 200) 1000 = 1000 ∧
     p1.2.tLast "rlr" = some 1000 ∧
     (processJobsSync (fun _ => false) 1000 p1.2).1 = [⟨"rlr", some 1000⟩] ∧
     (100 + 200 < 1000 → (some 1000 : Option Nat) ≠ some (100 + 200))) :=
  ⟨⟨by decide, by decide, by decide⟩,
    rate_limit_retry_reconcile "rlr" 1000 60000 200 200 200 100
      (by decide) (by decide) (by decide)⟩

/-- Modelled from the spec (sections 3 and 4.1): a job row as the Job Store
sees it, with the claimed/leased flag used by the atomic claim. -/
structure StoreJob where
  id : Nat
  scheduledAt : Option Nat
  attemptsLeft : Nat
  claimed : Bool
deriving Repr, DecidableEq

/-- Due check on a store row: no explicit schedule, or schedule reached. -/
def storeDueB (j : StoreJob) (now : Nat) : Bool :=
  match j.scheduledAt with
  | none => true
  | some s => s ≤ now

/-- Modelled from the spec (section 4.1): `ClaimDue(limit)` atomically selects
up to `limit` due, unclaimed rows with `attempts_left > 0`, marks them claimed
in the store, and returns them. The whole selection-and-mark is one atomic
step of the storage layer, so concurrent callers observe it in some order.
Returns the claimed rows and the updated store. -/
def claimDue : Nat → Nat → List StoreJob → List StoreJob × List StoreJob
  | _, _, [] => ([], [])
  | limit, now, j :: rest =>
    if 0 < limit ∧ j.claimed = false ∧ j.attemptsLeft ≠ 0 ∧ storeDueB j now = true then
      let r := claimDue (limit - 1) now rest
      ({ j with claimed := true } :: r.1, { j with claimed := true } :: r.2)
    else
      let r := claimDue limit now rest
      (r.1, j :: r.2)

/-- Claiming rewrites rows in place: the row identifiers of the store are
unchanged by `claimDue`. -/
lemma claimDue_ids (now : Nat) (s : List StoreJob) :
    ∀ l, ((claimDue l now s).2.map (fun j => j.id)) = s.map (fun j => j.id) := by
  induction s with
  | nil => intro l; simp [claimDue]
  | cons j rest ih =>
      intro l
      by_cases hc : 0 < l ∧ j.claimed = false ∧ j.attemptsLeft ≠ 0 ∧ storeDueB j now = true
      · simp [claimDue, hc, ih]
      · simp [claimDue, hc, ih]

/-- Every returned row is present (marked) in the updated store. -/
lemma claimDue_returned_mem_store (now : Nat) (s : List StoreJob) :
    ∀ l, ∀ j ∈ (claimDue l now s).1, j ∈ (claimDue l now s).2 := by
  induction s with
  | nil => intro l j hj; simp [claimDue] at hj
  | cons k rest ih =>
      intro l j hj
      by_cases hc : 0 < l ∧ k.claimed = false ∧ k.attemptsLeft ≠ 0 ∧ storeDueB k now = true
      · simp only [claimDue, if_pos hc, List.mem_cons] at hj ⊢
        rcases hj with h | h
        · exact Or.inl h
        · exact Or.inr (ih _ j h)
      · simp only [claimDue, if_neg hc, List.mem_cons] at hj ⊢
        exact Or.inr (ih _ j hj)

/-- Every returned row is claimed and originates from an unclaimed,
non-exhausted row of the store with the same identifier. -/
lemma claimDue_mem_returned (now : Nat) (s : List StoreJob) :
    ∀ l, ∀ j ∈ (claimDue l now s).1,
      j.claimed = true ∧
      ∃ j0 ∈ s, j0.claimed = false ∧ j0.attemptsLeft ≠ 0 ∧ j = { j0 with claimed := true } := by
  induction s with
  | nil => intro l j hj; simp [claimDue] at hj
  | cons k rest ih =>
      intro l j hj
      by_cases hc : 0 < l ∧ k.claimed = false ∧ k.attemptsLeft ≠ 0 ∧ storeDueB k now = true
      · simp only [claimDue, if_pos hc, List.mem_cons] at hj
        rcases hj with h | h
        · exact ⟨by rw [h], k, List.mem_cons_self k rest, hc.2.1, hc.2.2.1, h⟩
        · obtain ⟨h1, j0, hj0, h2, h3, h4⟩ := ih _ j h
          exact ⟨h1, j0, List.mem_cons_of_mem k hj0, h2, h3, h4⟩
      · simp only [claimDue, if_neg hc] at hj
        obtain ⟨h1, j0, hj0, h2, h3, h4⟩ := ih _ j hj
        exact ⟨h1, j0, List.mem_cons_of_mem k hj0, h2, h3, h4⟩

/-- Rows that are unclaimed in the updated store were rows of the original
store. -/
lemma claimDue_unclaimed_mem (now : Nat) (s : List StoreJob) :
    ∀ l, ∀ k ∈ (claimDue l now s).2, k.claimed = false → k ∈ s := by
  induction s with
  | nil => intro l k hk; simp [claimDue] at hk
  | cons j rest ih =>
      intro l k hk hfalse
      by_cases hc : 0 < l ∧ j.claimed = false ∧ j.attemptsLeft ≠ 0 ∧ storeDueB j now = true
      · simp only [claimDue, if_pos hc, List.mem_cons] at hk
        rcases hk with h | h
        · rw [h] at hfalse
          simp at hfalse
        · exact List.mem_cons_of_mem j (ih _ k h hfalse)
      · simp only [claimDue, if_neg hc, List.mem_cons] at hk
        rcases hk with h | h
        · rw [h]; exact List.mem_cons_self j rest
        · exact List.mem_cons_of_mem j (ih _ k h hfalse)

/-- C5: with unique row identifiers, two claim operations executed against
the shared store in sequence (the atomic claim serializes concurrent
callers, including workers of separate backend instances) never return the
same row: the identifier sets of the two returned batches are disjoint.
Moreover every claimed row had `attempts_left > 0`, and a terminal row
(`attempts_left = 0`) is never claimed. -/
theorem claim_due_no_double_delivery (s : List StoreJob) (l1 l2 now1 now2 : Nat)
    (hnd : (s.map (fun j => j.id)).Nodup) :
    (∀ j ∈ (claimDue l1 now1 s).1, ∀ k ∈ (claimDue l2 now2 (claimDue l1 now1 s).2).1,
      j.id ≠ k.id) ∧
    (∀ j ∈ (claimDue l1 now1 s).1, j.attemptsLeft ≠ 0) ∧
    (∀ t ∈ s, t.attemptsLeft = 0 → ∀ j ∈ (claimDue l1 now1 s).1, j.id ≠ t.id) := by
  have hnd1 : ((claimDue l1 now1 s).2.map (fun j => j.id)).Nodup := by
    rw [claimDue_ids now1 s l1]
    exact hnd
  refine ⟨?_, ?_, ?_⟩
  · intro j hj k hk heq
    obtain ⟨hjc, _⟩ := claimDue_mem_returned now1 s l1 j hj
    have hjs : j ∈ (claimDue l1 now1 s).2 := claimDue_returned_mem_store now1 s l1 j hj
    obtain ⟨_, k0, hk0, hk0c, _, hk0eq⟩ :=
      claimDue_mem_returned now2 (claimDue l1 now1 s).2 l2 k hk
    have hkid : k.id = k0.id := by rw [hk0eq]
    have : j = k0 :=
      List.inj_on_of_nodup_map hnd1 hjs hk0 (by rw [heq, hkid])
    rw [this] at hjc
    rw [hjc] at hk0c
    exact absurd hk0c (by simp)
  · intro j hj
    obtain ⟨_, j0, _, _, h3, h4⟩ := claimDue_mem_returned now1 s l1 j hj
    rw [h4]
    exact h3
  · intro t ht ht0 j hj heq
    obtain ⟨_, j0, hj0, _, h3, h4⟩ := claimDue_mem_returned now1 s l1 j hj
    have hid : j0.id = t.id := by
      have : j.id = j0.id := by rw [h4]
      omega
    have : j0 = t := List.inj_on_of_nodup_map hnd hj0 ht hid
    rw [this] at h3
    exact h3 ht0

/-- Witness for C5 at a concrete store: two rows, the second terminal; two
claim calls. -/
theorem claim_due_no_double_delivery_witness :
    (([⟨1, none, 3, false⟩, ⟨2, some 5, 0, false⟩] : List StoreJob).map
        (fun j => j.id)).Nodup ∧
    ((∀ j ∈ (claimDue 5 10 [⟨1, none, 3, false⟩, ⟨2, some 5, 0, false⟩]).1,
        ∀ k ∈ (claimDue 5 20 (claimDue 5 10
          [⟨1, none, 3, false⟩, ⟨2, some 5, 0, false⟩]).2).1, j.id ≠ k.id) ∧
      (∀ j ∈ (claimDue 5 10 [⟨1, none, 3, false⟩, ⟨2, some 5, 0, false⟩]).1,
        j.attemptsLeft ≠ 0) ∧
      (∀ t ∈ ([⟨1, none, 3, false⟩, ⟨2, some 5, 0, false⟩] : List StoreJob),
        t.attemptsLeft = 0 →
        ∀ j ∈ (claimDue 5 10 [⟨1, none, 3, false⟩, ⟨2, some 5, 0, false⟩]).1,
          j.id ≠ t.id)) :=
  ⟨by decide,
    claim_due_no_double_delivery [⟨1, none, 3, false⟩, ⟨2, some 5, 0, false⟩]
      5 5 10 20 (by decide)⟩

/-- Resource mutation operations (`core.OperationCreate` and friends). -/
inductive Operation where
  | create
  | update
  | delete
deriving Repr, DecidableEq

/-- Modelled from the spec (section 3): a notification registration — the
resource path (as segments), the operation, the state filter and the handler
identity key (the address of the registered handler value). -/
structure NotificationRegistration where
  path : List String
  op : Operation
  state : String
  key : Nat
deriving Repr, DecidableEq

/-- Modelled from the spec (section 4.6): `RequestNotification` appends one
registration; every call creates an independent registration, identified by
the handler identity key it was registered under. -/
def requestNotification (regs : List NotificationRegistration) (path : List String)
    (op : Operation) (state : String) (key : Nat) : List NotificationRegistration :=
  regs ++ [⟨path, op, state, key⟩]

/-- Modelled from the spec (section 4.6): `RemoveNotificationHandler` removes
every registration whose handler identity matches, across all paths,
operations and states, and reports the count removed. -/
def removeNotificationHandler (key : Nat) (regs : List NotificationRegistration) :
    Nat × List NotificationRegistration :=
  ((regs.filter (fun r => r.key == key)).length,
    regs.filter (fun r => !(r.key == key)))

/-- Modelled from the spec (section 4.6): a registration matches a mutation
when the operation matches, the state filter equals the mutation state
exactly, and the registered resource path is the mutated path itself or a
coarser ancestor of it (segment-wise). -/
def matchesMutation (r : NotificationRegistration) (path : List String)
    (op : Operation) (state : String) : Bool :=
  r.op == op && r.state == state && r.path.isPrefixOf path

/-- Modelled from the spec (section 4.6): the handler identities invoked by
one `notify` call — the distinct identity keys of all matching
registrations; each registered handler runs exactly once per mutation. -/
def notifiedKeys (regs : List NotificationRegistration) (path : List String)
    (op : Operation) (state : String) : List Nat :=
  ((regs.filter (fun r => matchesMutation r path op state)).map (fun r => r.key)).dedup

/-- A single resource mutation as seen by the notification fan-out. -/
structure Mutation where
  path : List String
  op : Operation
  state : String
deriving Repr, DecidableEq

/-- Number of times the handler with identity `key` is invoked over a
sequence of mutations. -/
def invocationCount (regs : List NotificationRegistration) (muts : List Mutation)
    (key : Nat) : Nat :=
  (muts.map (fun m => if key ∈ notifiedKeys regs m.path m.op m.state then 1 else 0)).sum

/-- The nine registrations of the notification test: three handler
identities, each registered for one operation on the root path and its two
child paths, all with state filter `mystate`. -/
def testRegistrations : List NotificationRegistration :=
  [⟨["notification"], Operation.create, "mystate", 1⟩,
   ⟨["notification", "normal"], Operation.create, "mystate", 1⟩,
   ⟨["notification", "single"], Operation.create, "mystate", 1⟩,
   ⟨["notification"], Operation.update, "mystate", 2⟩,
   ⟨["notification", "normal"], Operation.update, "mystate", 2⟩,
   ⟨["notification", "single"], Operation.update, "mystate", 2⟩,
   ⟨["notification"], Operation.delete, "mystate", 3⟩,
   ⟨["notification", "normal"], Operation.delete, "mystate", 3⟩,
   ⟨["notification", "single"], Operation.delete, "mystate", 3⟩]

/-- C6: `RemoveNotificationHandler` removes every registration with the given
handler identity across all path/operation/state combinations: no remaining
registration carries the identity, subsequent matching mutations never invoke
it again, and the reported count is exactly the number of registrations
removed (count removed plus count remaining equals the original count).
Registering the same handler value twice yields two independent
registrations, both removed and both counted. Concretely, removing the three
handlers of the notification test (each registered on 3 paths) reports
3 + 3 + 3 = 9 removals and empties the registry. -/
theorem remove_notification_handler_all (k : Nat) (regs : List NotificationRegistration) :
    (∀ r ∈ (removeNotificationHandler k regs).2, r.key ≠ k) ∧
    (∀ (p : List String) (op : Operation) (st : String),
      k ∉ notifiedKeys (removeNotificationHandler k regs).2 p op st) ∧
    regs.length = (removeNotificationHandler k regs).1 +
      (removeNotificationHandler k regs).2.length ∧
    (∀ (p : List String) (op : Operation) (st : String),
      (removeNotificationHandler k
        (requestNotification (requestNotification regs p op st k) p op st k)).1 =
        (removeNotificationHandler k regs).1 + 2) ∧
    ((removeNotificationHandler 1 testRegistrations).1 +
        (removeNotificationHandler 2 (removeNotificationHandler 1 testRegistrations).2).1 +
        (removeNotificationHandler 3 (removeNotificationHandler 2
          (removeNotificationHandler 1 testRegistrations).2).2).1 = 9 ∧
      (removeNotificationHandler 3 (removeNotificationHandler 2
        (removeNotificationHandler 1 testRegistrations).2).2).2 = []) := by
  refine ⟨?_, ?_, ?_, ?_, by decide, by decide⟩
  · intro r hr
    simp only [removeNotificationHandler, List.mem_filter, Bool.not_eq_eq_eq_not,
      Bool.not_true, beq_eq_false_iff_ne, ne_eq] at hr
    exact hr.2
  · intro p op st hk
    simp only [notifiedKeys, List.mem_dedup, List.mem_map] at hk
    obtain ⟨r, hr, hrk⟩ := hk
    have hr2 := List.mem_of_mem_filter hr
    simp only [removeNotificationHandler, List.mem_filter, Bool.not_eq_eq_eq_not,
      Bool.not_true, beq_eq_false_iff_ne, ne_eq] at hr2
    exact hr2.2 hrk
  · exact List.length_eq_length_filter_add (fun r : NotificationRegistration => r.key == k)
  · intro p op st
    simp [removeNotificationHandler, requestNotification, List.filter_append]

/-- Witness for C6: the general clauses applied to handler identity 1 and
the nine test registrations. -/
theorem remove_notification_handler_all_witness :
    (∀ r ∈ (removeNotificationHandler 1 testRegistrations).2, r.key ≠ 1) ∧
    (∀ (p : List String) (op : Operation) (st : String),
      1 ∉ notifiedKeys (removeNotificationHandler 1 testRegistrations).2 p op st) ∧
    testRegistrations.length = (removeNotificationHandler 1 testRegistrations).1 +
      (removeNotificationHandler 1 testRegistrations).2.length ∧
    (∀ (p : List String) (op : Operation) (st : String),
      (removeNotificationHandler 1
        (requestNotification (requestNotification testRegistrations p op st 1) p op st 1)).1 =
        (removeNotificationHandler 1 testRegistrations).1 + 2) ∧
    ((removeNotificationHandler 1 testRegistrations).1 +
        (removeNotificationHandler 2 (removeNotificationHandler 1 testRegistrations).2).1 +
        (removeNotificationHandler 3 (removeNotificationHandler 2
          (removeNotificationHandler 1 testRegistrations).2).2).1 = 9 ∧
      (removeNotificationHandler 3 (removeNotificationHandler 2
        (removeNotificationHandler 1 testRegistrations).2).2).2 = []) :=
  remove_notification_handler_all 1 testRegistrations

/-- C7: notification fan-out invokes exactly the handler identities that have
a registration whose operation matches, whose state filter equals the
mutation state exactly (so an empty filter matches only an empty state), and
whose path is the mutated path or a coarser ancestor of it; each registered
handler is invoked at most once per mutation (the invoked identity list has
no duplicates). Concretely, in the notification test a mutation of
`notification/normal` matches two registrations of the same handler (exact
path and ancestor path) yet invokes it once, and the 4 matching create,
update and delete mutations yield `createCount = updateCount = deleteCount
= 4`. -/
theorem notification_fanout_matching :
    (∀ (regs : List NotificationRegistration) (p : List String) (op : Operation)
        (st : String) (k : Nat),
      k ∈ notifiedKeys regs p op st ↔
        ∃ r ∈ regs, r.key = k ∧ r.op = op ∧ r.state = st ∧ r.path <+: p) ∧
    (∀ (regs : List NotificationRegistration) (p : List String) (op : Operation)
        (st : String), (notifiedKeys regs p op st).Nodup) ∧
    (∀ (r : NotificationRegistration) (p : List String) (op : Operation) (st : String),
      r.state = "" → matchesMutation r p op st = true → st = "") ∧
    ((testRegistrations.filter
        (fun r => matchesMutation r ["notification", "normal"] Operation.create "mystate")).length
        = 2 ∧
      notifiedKeys testRegistrations ["notification", "normal"] Operation.create "mystate"
        = [1]) ∧
    invocationCount testRegistrations
      [⟨["notification"], Operation.create, "mystate"⟩,
       ⟨["notification", "normal"], Operation.create, "mystate"⟩,
       ⟨["notification", "single"], Operation.create, "mystate"⟩,
       ⟨["notification", "single"], Operation.create, "mystate"⟩] 1 = 4 ∧
    invocationCount testRegistrations
      [⟨["notification"], Operation.update, "mystate"⟩,
       ⟨["notification", "normal"], Operation.update, "mystate"⟩,
       ⟨["notification", "single"], Operation.update, "mystate"⟩,
       ⟨["notification", "single"], Operation.update, "mystate"⟩] 2 = 4 ∧
    invocationCount testRegistrations
      [⟨["notification", "normal"], Operation.delete, "mystate"⟩,
       ⟨["notification", "single"], Operation.delete, "mystate"⟩,
       ⟨["notification", "single"], Operation.delete, "mystate"⟩,
       ⟨["notification"], Operation.delete, "mystate"⟩] 3 = 4 := by
  refine ⟨?_, ?_, ?_, by decide, by decide, by decide, by decide⟩
  · intro regs p op st k
    simp only [notifiedKeys, List.mem_dedup, List.mem_map, List.mem_filter,
      matchesMutation, Bool.and_eq_true, beq_iff_eq, List.isPrefixOf_iff_prefix]
    constructor
    · rintro ⟨r, ⟨hr, ⟨hop, hst⟩, hpre⟩, hk⟩
      exact ⟨r, hr, hk, hop, hst, hpre⟩
    · rintro ⟨r, hr, hk, hop, hst, hpre⟩
      exact ⟨r, ⟨hr, ⟨hop, hst⟩, hpre⟩, hk⟩
  · intro regs p op st
    exact List.nodup_dedup _
  · intro r p op st hempty hmatch
    simp only [matchesMutation, Bool.and_eq_true, beq_iff_eq] at hmatch
    rw [← hmatch.1.2, hempty]

/-- Witness for C7: the matching characterisation applied at the
`notification/normal` create mutation, and the empty-state-filter clause
discharged at a concrete registration. -/
theorem notification_fanout_matching_witness :
    (1 ∈ notifiedKeys testRegistrations ["notification", "normal"] Operation.create "mystate" ↔
      ∃ r ∈ testRegistrations, r.key = 1 ∧ r.op = Operation.create ∧ r.state = "mystate" ∧
        r.path <+: ["notification", "normal"]) ∧
    ("" : String) = "" :=
  ⟨notification_fanout_matching.1 testRegistrations ["notification", "normal"]
      Operation.create "mystate" 1,
    notification_fanout_matching.2.2.1 ⟨["a"], Operation.create, "", 7⟩ ["a"]
      Operation.create "" rfl (by decide)⟩

/-- Program counter of one caller of the default `triggerJobs` closure: it is
either outside the call, or it has evaluated `len(trigger) == 0` to true and
is about to send on the channel. -/
inductive ProducerPC where
  | idle
  | ready
deriving Repr, DecidableEq

/-- State of the default trigger installed by `New` when `Builder.TriggerJobs`
is nil: the buffered wake-up channel of capacity 10 (`queue` is the number of
buffered items), two concurrent callers of `triggerJobs`, and the number of
processing rounds the consumer goroutine is currently executing. -/
structure TriggerState where
  queue : Nat
  p1 : ProducerPC
  p2 : ProducerPC
  running : Nat
deriving Repr, DecidableEq

/-- Interleaved small-step semantics of the trigger code in `New`: a caller
first evaluates `len(trigger) == 0` (a separate step from the send), then
sends on the channel; the consumer goroutine receives a wake-up and runs one
processing round under the mutex, then releases it. -/
inductive TriggerStep : TriggerState → TriggerState → Prop where
  | check1 (s : TriggerState) : s.p1 = ProducerPC.idle → s.queue = 0 →
      TriggerStep s { s with p1 := ProducerPC.ready }
  | send1 (s : TriggerState) : s.p1 = ProducerPC.ready → s.queue < 10 →
      TriggerStep s { s with p1 := ProducerPC.idle, queue := s.queue + 1 }
  | check2 (s : TriggerState) : s.p2 = ProducerPC.idle → s.queue = 0 →
      TriggerStep s { s with p2 := ProducerPC.ready }
  | send2 (s : TriggerState) : s.p2 = ProducerPC.ready → s.queue < 10 →
      TriggerStep s { s with p2 := ProducerPC.idle, queue := s.queue + 1 }
  | recv (s : TriggerState) : s.running = 0 → 0 < s.queue →
      TriggerStep s { s with queue := s.queue - 1, running := 1 }
  | finish (s : TriggerState) : 0 < s.running →
      TriggerStep s { s with running := s.running - 1 }

/-- Initial trigger state: empty channel, both callers outside, no round. -/
def triggerInit : TriggerState := ⟨0, ProducerPC.idle, ProducerPC.idle, 0⟩

/-- States the trigger system can reach from the initial state. -/
def TriggerReach (s : TriggerState) : Prop :=
  Relation.ReflTransGen TriggerStep triggerInit s

/-- C9 counterexample: the claim that at most one pending wake-up request is
ever outstanding is false for the code. The check `len(trigger) == 0` and
the subsequent send are not atomic, so two interleaved `triggerJobs` calls
(both check the empty channel, then both send) reach a state with two
buffered wake-up requests. -/
theorem trigger_two_pending_reachable :
    ∃ s, TriggerReach s ∧ 2 ≤ s.queue := by
  refine ⟨⟨2, ProducerPC.idle, ProducerPC.idle, 0⟩, ?_, by decide⟩
  have h1 : TriggerStep triggerInit ⟨0, ProducerPC.ready, ProducerPC.idle, 0⟩ :=
    TriggerStep.check1 triggerInit rfl rfl
  have h2 : TriggerStep ⟨0, ProducerPC.ready, ProducerPC.idle, 0⟩
      ⟨0, ProducerPC.ready, ProducerPC.ready, 0⟩ :=
    TriggerStep.check2 ⟨0, ProducerPC.ready, ProducerPC.idle, 0⟩ rfl rfl
  have h3 : TriggerStep ⟨0, ProducerPC.ready, ProducerPC.ready, 0⟩
      ⟨1, ProducerPC.idle, ProducerPC.ready, 0⟩ :=
    TriggerStep.send1 ⟨0, ProducerPC.ready, ProducerPC.ready, 0⟩ rfl (by decide)
  have h4 : TriggerStep ⟨1, ProducerPC.idle, ProducerPC.ready, 0⟩
      ⟨2, ProducerPC.idle, ProducerPC.idle, 0⟩ :=
    TriggerStep.send2 ⟨1, ProducerPC.idle, ProducerPC.ready, 0⟩ rfl (by decide)
  exact Relation.ReflTransGen.tail
    (Relation.ReflTransGen.tail
      (Relation.ReflTransGen.tail (Relation.ReflTransGen.single h1) h2) h3) h4

/-- State of the amended (atomic-call) trigger model: buffered wake-ups and
currently running rounds. -/
structure AtomicTriggerState where
  queue : Nat
  running : Nat
deriving Repr, DecidableEq

/-- One `triggerJobs` call executed atomically (its check and send are not
interleaved with another call): enqueue a wake-up when the channel is empty,
otherwise do nothing. -/
def atomicTriggerJobs (s : AtomicTriggerState) : AtomicTriggerState :=
  if s.queue = 0 then { s with queue := s.queue + 1 } else s

/-- Steps of the atomic-call trigger model: an atomic `triggerJobs` call, the
consumer receiving a wake-up and starting a round, and a round finishing. -/
inductive AtomicTriggerStep : AtomicTriggerState → AtomicTriggerState → Prop where
  | trig (s : AtomicTriggerState) : AtomicTriggerStep s (atomicTriggerJobs s)
  | recv (s : AtomicTriggerState) : s.running = 0 → 0 < s.queue →
      AtomicTriggerStep s ⟨s.queue - 1, 1⟩
  | finish (s : AtomicTriggerState) : 0 < s.running →
      AtomicTriggerStep s ⟨s.queue, s.running - 1⟩

/-- States of the atomic-call model reachable from the empty initial state. -/
def AtomicTriggerReach (s : AtomicTriggerState) : Prop :=
  Relation.ReflTransGen AtomicTriggerStep ⟨0, 0⟩ s

/-- One atomic-model step preserves the debouncing invariant: at most one
pending wake-up and at most one running round. -/
lemma atomic_step_inv {s t : AtomicTriggerState} (h : AtomicTriggerStep s t)
    (hq : s.queue ≤ 1) (hr : s.running ≤ 1) : t.queue ≤ 1 ∧ t.running ≤ 1 := by
  cases h with
  | trig =>
      unfold atomicTriggerJobs
      by_cases h0 : s.queue = 0
      · rw [if_pos h0]
        exact ⟨by simp [h0], hr⟩
      · rw [if_neg h0]
        exact ⟨hq, hr⟩
  | recv h1 h2 =>
      refine ⟨?_, ?_⟩
      · show s.queue - 1 ≤ 1
        omega
      · show (1 : Nat) ≤ 1
        omega
  | finish h1 =>
      refine ⟨hq, ?_⟩
      show s.running - 1 ≤ 1
      omega

/-- C9 amended: when `triggerJobs` calls do not interleave (check and send
atomic), at most one pending wake-up is ever outstanding and at most one
processing round runs at a time; a call while a wake-up is pending is a
no-op and enqueues nothing; and from any reachable state with a pending
wake-up the consumer can, within finitely many of its own steps, consume it
and start a processing round. -/
theorem trigger_debounced_amended :
    (∀ s, AtomicTriggerReach s → s.queue ≤ 1 ∧ s.running ≤ 1) ∧
    (∀ s, s.queue ≠ 0 → atomicTriggerJobs s = s) ∧
    (∀ s, AtomicTriggerReach s → 0 < s.queue →
      ∃ s', Relation.ReflTransGen AtomicTriggerStep s s' ∧
        s'.running = 1 ∧ s'.queue + 1 = s.queue) := by
  have hinv : ∀ s, AtomicTriggerReach s → s.queue ≤ 1 ∧ s.running ≤ 1 := by
    intro s hs
    induction hs with
    | refl => exact ⟨by decide, by decide⟩
    | tail _ hstep ih => exact atomic_step_inv hstep ih.1 ih.2
  refine ⟨hinv, ?_, ?_⟩
  · intro s h
    unfold atomicTriggerJobs
    rw [if_neg h]
  · intro s hs hq
    rcases Nat.eq_zero_or_pos s.running with h0 | h1
    · refine ⟨⟨s.queue - 1, 1⟩,
        Relation.ReflTransGen.single (AtomicTriggerStep.recv s h0 hq), rfl, ?_⟩
      show s.queue - 1 + 1 = s.queue
      omega
    · refine ⟨⟨s.queue - 1, 1⟩, ?_, rfl, ?_⟩
      · have hfin : AtomicTriggerStep s ⟨s.queue, s.running - 1⟩ :=
          AtomicTriggerStep.finish s h1
        have hrecv : AtomicTriggerStep ⟨s.queue, s.running - 1⟩ ⟨s.queue - 1, 1⟩ := by
          have h0 : s.running - 1 = 0 := by
            have := (hinv s hs).2
            omega
          rw [h0]
          exact AtomicTriggerStep.recv ⟨s.queue, 0⟩ rfl hq
        exact Relation.ReflTransGen.tail (Relation.ReflTransGen.single hfin) hrecv
      · show s.queue - 1 + 1 = s.queue
        omega

/-- Witness for the amended C9: the initial state is reachable and satisfies
the invariant, and a concrete no-op call at one pending wake-up. -/
theorem trigger_debounced_amended_witness :
    ((⟨0, 0⟩ : AtomicTriggerState).queue ≤ 1 ∧ (⟨0, 0⟩ : AtomicTriggerState).running ≤ 1) ∧
    atomicTriggerJobs ⟨1, 0⟩ = ⟨1, 0⟩ :=
  ⟨trigger_debounced_amended.1 ⟨0, 0⟩ Relation.ReflTransGen.refl,
    trigger_debounced_amended.2.1 ⟨1, 0⟩ (by decide)⟩

/-- Embedded from `createCollectionResource` in `core/backend/collection.go`:
the column list of a collection resource. It starts with the resource's own
identifier column `this_id`, then one identifier column per dependency
(ancestor resource), then `properties`, the static properties, the
searchable properties and the optional external index. -/
def collectionColumns (this : String) (deps statics searchables : List String)
    (extIdx : Option String) : List String :=
  ((this ++ "_id") :: deps.map (fun d => d ++ "_id")) ++ ["properties"] ++ statics
    ++ searchables ++ (match extIdx with | none => [] | some n => [n])

/-- Embedded from `createCollectionResource`: `propertiesIndex` is the number
of identifier columns, the index where `properties` starts. -/
def collectionPropertiesIndex (deps : List String) : Nat := 1 + deps.length

/-- One entry of Go's `json.MarshalIndent` output for a string-valued map:
a newline, the prefix, the indent, then the quoted key and value. -/
def onePair (pfx ind : String) (kv : String × String) : String :=
  "\n" ++ pfx ++ ind ++ "\"" ++ kv.1 ++ "\": \"" ++ kv.2 ++ "\""

/-- The comma-separated entry list of `json.MarshalIndent` output. -/
def joinEntries (pfx ind : String) : List (String × String) → String
  | [] => ""
  | [kv] => onePair pfx ind kv
  | kv :: rest => onePair pfx ind kv ++ "," ++ joinEntries pfx ind rest

/-- Model of Go's `json.MarshalIndent(m, pfx, ind)` on a string-valued map
with the given (already key-sorted) entries: every newline in the output is
followed by `pfx`, then nesting-level copies of `ind`. Character escaping
inside keys and values is not modelled; the keys and values used here are
identifier names and UUID strings, which need no escaping. -/
def marshalIndentMap : List (String × String) → String → String → String
  | [], _, _ => "\x7b\x7d"
  | kv :: rest, pfx, ind =>
      "\x7b" ++ joinEntries pfx ind (kv :: rest) ++ "\n" ++ pfx ++ "\x7d"

/-- Insertion step of key-sorting map entries, as Go's encoder sorts map
keys. -/
def insertPair (kv : String × String) : List (String × String) → List (String × String)
  | [] => [kv]
  | x :: xs => if kv.1 ≤ x.1 then kv :: x :: xs else x :: insertPair kv xs

/-- Key-sorting of map entries before serialization. -/
def sortPairs : List (String × String) → List (String × String)
  | [] => []
  | x :: xs => insertPair x (sortPairs xs)

/-- Embedded from `doDeleteWithAuth`: the notification object built after a
successful delete — one entry per identifier column, taken from the request
parameters; the object's properties are never included. -/
def deleteNotificationPairs (columns : List String) (pIdx : Nat)
    (params : String → String) : List (String × String) :=
  (columns.take pIdx).map (fun c => (c, params c))

/-- A `notify` invocation: resource, operation, state and serialized
payload. -/
structure NotifyCall where
  resource : String
  op : Operation
  state : String
  payload : String
deriving Repr, DecidableEq

/-- Embedded from `doDeleteWithAuth` in `core/backend/collection.go`: after
the authorization check, the delete query returns the deleted row's state
(or no row). On success the handler builds the notification map from the
identifier columns, serializes it with `json.MarshalIndent(notification,
state, " ")` — the state string is passed as the indentation prefix — calls
`notify` once with the delete operation and that state, and answers 204.
Without a row it answers 404 and does not notify. -/
def doDeleteWithAuth (resource : String) (columns : List String) (pIdx : Nat)
    (params : String → String) (authorized : Bool) (dbResult : Option String) :
    Nat × Option NotifyCall :=
  if authorized = false then (401, none)
  else
    match dbResult with
    | none => (404, none)
    | some state =>
        (204, some ⟨resource, Operation.delete, state,
          marshalIndentMap (sortPairs (deleteNotificationPairs columns pIdx params))
            state " "⟩)

/-- No identifier column is called `properties`: identifier columns all end
in the three characters `_id`. -/
lemma append_id_ne_properties (x : String) : x ++ "_id" ≠ "properties" := by
  intro h
  have h2 : (x ++ "_id").data.getLast? = "properties".data.getLast? := by rw [h]
  rw [String.data_append, List.getLast?_append] at h2
  simp at h2

/-- Inserting preserves the entries up to permutation. -/
lemma insertPair_perm (kv : String × String) :
    ∀ l, (insertPair kv l).Perm (kv :: l)
  | [] => List.Perm.refl _
  | x :: xs => by
      unfold insertPair
      by_cases h : kv.1 ≤ x.1
      · rw [if_pos h]
      · rw [if_neg h]
        exact ((insertPair_perm kv xs).cons x).trans (List.Perm.swap kv x xs)

/-- Sorting preserves the entries up to permutation. -/
lemma sortPairs_perm : ∀ l : List (String × String), (sortPairs l).Perm l
  | [] => List.Perm.refl _
  | x :: xs => (insertPair_perm x (sortPairs xs)).trans ((sortPairs_perm xs).cons x)

/-- The length contribution of the prefix argument to one serialized
entry. -/
lemma onePair_pfx_length (pfx ind : String) (kv : String × String) :
    (onePair pfx ind kv).length = (onePair "" ind kv).length + pfx.length := by
  simp [onePair, String.length_append]
  omega

/-- The length contribution of the prefix argument to the entry list: one
copy per entry. -/
lemma joinEntries_pfx_length (pfx ind : String) :
    ∀ l : List (String × String), l ≠ [] →
      (joinEntries pfx ind l).length = (joinEntries "" ind l).length + l.length * pfx.length
  | [], h => absurd rfl h
  | [kv], _ => by
      show (onePair pfx ind kv).length = (onePair "" ind kv).length + 1 * pfx.length
      rw [onePair_pfx_length pfx ind kv]
      ring
  | kv :: kv2 :: rest, _ => by
      have ih := joinEntries_pfx_length pfx ind (kv2 :: rest) (by simp)
      simp only [joinEntries, String.length_append, ih, onePair_pfx_length pfx ind kv,
        List.length_cons]
      ring

/-- The length contribution of the prefix argument to the whole payload:
one copy per entry plus one before the closing brace. -/
lemma marshalIndentMap_pfx_length (pairs : List (String × String)) (pfx ind : String)
    (h : pairs ≠ []) :
    (marshalIndentMap pairs pfx ind).length
      = (marshalIndentMap pairs "" ind).length + (pairs.length + 1) * pfx.length := by
  match pairs with
  | [] => exact absurd rfl h
  | kv :: rest =>
      have hj := joinEntries_pfx_length pfx ind (kv :: rest) (by simp)
      simp only [marshalIndentMap, String.length_append, hj, List.length_cons]
      rw [show ("" : String).length = 0 from rfl]
      ring

/-- A non-empty prefix makes the payload longer than the canonical
serialization, hence different from it. -/
lemma marshalIndentMap_not_canonical (pairs : List (String × String)) (st : String)
    (h1 : pairs ≠ []) (h2 : st ≠ "") :
    marshalIndentMap pairs st " " ≠ marshalIndentMap pairs "" " " := by
  intro heq
  have hlen := congrArg String.length heq
  rw [marshalIndentMap_pfx_length pairs st " " h1] at hlen
  have hpos : 0 < st.length := by
    rcases st with ⟨l⟩
    cases l with
    | nil => exact absurd rfl h2
    | cons c cs => simp [String.length]
  have hnz : 0 < (pairs.length + 1) * st.length := by positivity
  omega

/-- C10: a successful DELETE of a collection or singleton item notifies
exactly once, with the delete operation and the state returned by the
deleting query; the payload is serialized from a map holding exactly the
identifier columns of the resource path (`this_id` and one `dep_id` per
ancestor), never the object's properties; and since the row's state string
is passed as the `MarshalIndent` indentation prefix, a non-empty state makes
the payload differ from canonically indented JSON. An unauthorized or
row-less delete does not notify. -/
theorem delete_notification_payload (resource this : String)
    (deps statics searchables : List String) (extIdx : Option String)
    (params : String → String) (state : String) :
    (let columns := collectionColumns this deps statics searchables extIdx
     let pIdx := collectionPropertiesIndex deps
     let pairs := deleteNotificationPairs columns pIdx params
     (doDeleteWithAuth resource columns pIdx params true (some state)).1 = 204 ∧
     (doDeleteWithAuth resource columns pIdx params true (some state)).2
       = some ⟨resource, Operation.delete, state,
           marshalIndentMap (sortPairs pairs) state " "⟩ ∧
     pairs.map Prod.fst = (this ++ "_id") :: deps.map (fun d => d ++ "_id") ∧
     "properties" ∉ pairs.map Prod.fst ∧
     ((sortPairs pairs).map Prod.fst).Perm (pairs.map Prod.fst) ∧
     (state ≠ "" → marshalIndentMap (sortPairs pairs) state " "
         ≠ marshalIndentMap (sortPairs pairs) "" " ") ∧
     (doDeleteWithAuth resource columns pIdx params true none).2 = none ∧
     (doDeleteWithAuth resource columns pIdx params false (some state)).2 = none) := by
  intro columns pIdx pairs
  have hids : columns.take pIdx = (this ++ "_id") :: deps.map (fun d => d ++ "_id") := by
    have hlen : ((this ++ "_id") :: deps.map (fun d => d ++ "_id")).length = pIdx := by
      simp [pIdx, collectionPropertiesIndex]
      omega
    calc columns.take pIdx
        = (((this ++ "_id") :: deps.map (fun d => d ++ "_id")) ++ (["properties"] ++ statics
            ++ searchables ++ (match extIdx with | none => [] | some n => [n]))).take pIdx := by
          simp [columns, collectionColumns]
      _ = (this ++ "_id") :: deps.map (fun d => d ++ "_id") := by
          rw [← hlen, List.take_left]
  have hkeys : pairs.map Prod.fst = (this ++ "_id") :: deps.map (fun d => d ++ "_id") := by
    simp only [pairs, deleteNotificationPairs, List.map_map]
    rw [show (Prod.fst ∘ fun c => (c, params c)) = id from rfl, List.map_id, hids]
  have hne : pairs ≠ [] := by
    intro h0
    rw [h0] at hkeys
    simp at hkeys
  have hsne : sortPairs pairs ≠ [] := by
    intro h0
    have hlen := (sortPairs_perm pairs).length_eq
    rw [h0] at hlen
    exact hne (List.length_eq_zero.mp (by simpa using hlen.symm))
  refine ⟨rfl, rfl, hkeys, ?_, (sortPairs_perm pairs).map Prod.fst, ?_, rfl, rfl⟩
  · rw [hkeys]
    intro hmem
    simp only [List.mem_cons, List.mem_map] at hmem
    rcases hmem with h | ⟨d, _, h⟩
    · exact append_id_ne_properties this h.symm
    · exact append_id_ne_properties d h
  · intro hst
    exact marshalIndentMap_not_canonical (sortPairs pairs) state hsne hst

/-- Witness for C10 at the `notification/normal` resource with a non-empty
state. -/
theorem delete_notification_payload_witness :
    (let columns := collectionColumns "normal" ["notification"] [] [] none
     let pIdx := collectionPropertiesIndex ["notification"]
     let pairs := deleteNotificationPairs columns pIdx (fun _ => "42")
     (doDeleteWithAuth "notification/normal" columns pIdx (fun _ => "42") true
        (some "mystate")).1 = 204 ∧
     (doDeleteWithAuth "notification/normal" columns pIdx (fun _ => "42") true
        (some "mystate")).2
       = some ⟨"notification/normal", Operation.delete, "mystate",
           marshalIndentMap (sortPairs pairs) "mystate" " "⟩ ∧
     pairs.map Prod.fst = ("normal" ++ "_id") :: ["notification"].map (fun d => d ++ "_id") ∧
     "properties" ∉ pairs.map Prod.fst ∧
     ((sortPairs pairs).map Prod.fst).Perm (pairs.map Prod.fst) ∧
     (("mystate" : String) ≠ "" → marshalIndentMap (sortPairs pairs) "mystate" " "
         ≠ marshalIndentMap (sortPairs pairs) "" " ") ∧
     (doDeleteWithAuth "notification/normal" columns pIdx (fun _ => "42") true none).2
       = none ∧
     (doDeleteWithAuth "notification/normal" columns pIdx (fun _ => "42") false
        (some "mystate")).2 = none) :=
  delete_notification_payload "notification/normal" "normal" ["notification"] [] [] none
    (fun _ => "42") "mystate"

end Kurbisio
